import Mathlib

/-!
Verification of the hyperopt orchestration layer
(`ludwig/utils/hyperopt_utils.py`): search strategies, executors,
parameter substitution and result ranking, embedded shallowly in Lean.

Python values flowing through this layer (samples, parameter dicts,
model-definition sections, evaluation stats) are modelled by `JVal`;
Python dicts are insertion-ordered association lists with string keys,
matching CPython semantics (`d[k] = v` keeps the position of an existing
key and appends a new one).  Metric scores are modelled as rationals.
Python exceptions are modelled with `Except PyErr`.
-/

/-- A Python value as this layer sees it: a numeric scalar, a string
scalar, or a dict with string keys (insertion-ordered association
list). -/
inductive JVal where
  | num : ℚ → JVal
  | str : String → JVal
  | obj : List (String × JVal) → JVal

/-- A Python dict with string keys, as used for samples, nested
parameter dicts and model-definition sections. -/
abbrev Dict := List (String × JVal)

/-- A parameter sample: a Python dict mapping (possibly dotted)
parameter names to sampled values. -/
abbrev Sample := Dict

/-- The Python exceptions this layer can raise. -/
inductive PyErr where
  | keyError : String → PyErr
  | typeError : PyErr
  | indexError : PyErr
deriving DecidableEq

/-- Python `d.get(k)`: the value at the first (unique) occurrence of `k`,
or `none`. -/
def dictGet (d : Dict) (k : String) : Option JVal :=
  match d with
  | [] => none
  | (k', v) :: rest => if k' = k then some v else dictGet rest k

/-- Python `d[k] = v`: replace in place when the key exists, append
otherwise. -/
def dictSet (d : Dict) (k : String) (v : JVal) : Dict :=
  match d with
  | [] => [(k, v)]
  | (k', v') :: rest => if k' = k then (k, v) :: rest else (k', v') :: dictSet rest k v

/-- Python `k in d`. -/
def dictMem (d : Dict) (k : String) : Bool :=
  (dictGet d k).isSome

/-- One step of the inner loop of `set_values`:
`model_dict[key][sub_key] = sub_value`.  Reading `model_dict[key]`
raises `KeyError(key)` when the key is absent; assigning into a
non-dict value raises a `TypeError`. -/
def setSubValue (model_dict : Dict) (key sub_key : String) (sub_value : JVal) :
    Except PyErr Dict :=
  match dictGet model_dict key with
  | none => .error (.keyError key)
  | some (.obj sub) => .ok (dictSet model_dict key (.obj (dictSet sub sub_key sub_value)))
  | some _ => .error .typeError

/-- `set_values(model_dict, name, parameters_dict)` (source lines
705-713): when `name` is a key of `parameters_dict`, iterate over the
entries of `parameters_dict[name]`; a dict-valued entry overwrites the
corresponding sub-keys of `model_dict[key]` one by one, any other entry
overwrites `model_dict[key]` directly.  Iterating `.items()` of a
non-dict value is a `TypeError`. -/
def setValues (model_dict : Dict) (name : String) (parameters_dict : Dict) :
    Except PyErr Dict :=
  match dictGet parameters_dict name with
  | none => .ok model_dict
  | some (.obj entries) =>
      entries.foldlM
        (fun md kv =>
          match kv.2 with
          | .obj subEntries =>
              subEntries.foldlM (fun md' skv => setSubValue md' kv.1 skv.1 skv.2) md
          | _ => .ok (dictSet md kv.1 kv.2))
        model_dict
  | some _ => .error .typeError

/-- Python `name.split(".")`: split on every dot, no merging of adjacent
separators, the empty string yields `[""]`.  (Implemented over the
string's character list so that concrete instances reduce.) -/
def splitDotsAux : List Char → List Char → List String
  | [], acc => [String.mk acc.reverse]
  | c :: cs, acc =>
      if c = '.' then String.mk acc.reverse :: splitDotsAux cs []
      else splitDotsAux cs (c :: acc)

/-- Python `name.split(".")`. -/
def splitDots (s : String) : List String :=
  splitDotsAux s.data []

/-- The inner loop of `get_parameters_dict` for one dotted name: walk
the nested dict along the path, creating empty sub-dicts for missing
intermediate segments, and store the value at the leaf segment.
Walking into an existing non-dict value makes the next loop iteration
fail in Python (`TypeError`/`AttributeError`); both are modelled as
`typeError`. -/
def insertPath (d : Dict) : List String → JVal → Except PyErr Dict
  | [], _ => .ok d
  | [k], v => .ok (dictSet d k v)
  | k :: k' :: rest, v =>
      match (dictGet d k).getD (.obj []) with
      | .obj sub => do
          let sub' ← insertPath sub (k' :: rest) v
          .ok (dictSet d k (.obj sub'))
      | _ => .error .typeError

/-- `get_parameters_dict(parameters)` (source lines 716-728): build a
nested dict from the flat dotted-name sample, in iteration order. -/
def getParametersDict (parameters : Sample) : Except PyErr Dict :=
  parameters.foldlM (fun acc nv => insertPath acc (splitDots nv.1) nv.2) []

/-- A model definition, as `substitute_parameters` uses it: the five
sections the source indexes (`model_definition["input_features"]` and so
on), each feature and section being a Python dict. -/
structure ModelDef where
  input_features : List Dict
  output_features : List Dict
  combiner : Dict
  training : Dict
  preprocessing : Dict

/-- `set_values(feature, feature["name"], parameters_dict)` for one
feature dict: reading `feature["name"]` raises `KeyError` when absent;
a non-string name can never equal a key of `parameters_dict` (whose
keys come from splitting strings), so the call is then a no-op. -/
def setFeatureValues (feature : Dict) (parameters_dict : Dict) : Except PyErr Dict :=
  match dictGet feature "name" with
  | none => .error (.keyError "name")
  | some (.str n) => setValues feature n parameters_dict
  | some _ => .ok feature

/-- `substitute_parameters(model_definition, parameters)` (source lines
731-740): parse the sample into a nested dict, then merge into each
input feature, each output feature, and the combiner, training and
preprocessing sections, mutating the given definition and returning
it. -/
def substituteParameters (model_definition : ModelDef) (parameters : Sample) :
    Except PyErr ModelDef := do
  let parameters_dict ← getParametersDict parameters
  let ifs ← model_definition.input_features.mapM (setFeatureValues · parameters_dict)
  let ofs ← model_definition.output_features.mapM (setFeatureValues · parameters_dict)
  let comb ← setValues model_definition.combiner "combiner" parameters_dict
  let train ← setValues model_definition.training "training" parameters_dict
  let preproc ← setValues model_definition.preprocessing "preprocessing" parameters_dict
  .ok { input_features := ifs, output_features := ofs, combiner := comb,
        training := train, preprocessing := preproc }

example : splitDots "combiner.fc.size" = ["combiner", "fc", "size"] := by rfl

example :
    getParametersDict [("combiner.fc.size", JVal.num 7)] =
      .ok [("combiner", JVal.obj [("fc", JVal.obj [("size", JVal.num 7)])])] := by rfl

/-- A hyperopt strategy as a state machine over its internal state `σ`
(the `HyperoptStrategy` interface).  `sample st = none` models the
`IndexError` exhaustion signal of `sample()`; the source strategies
leave their state unchanged when raising it, which the encoding makes
intrinsic. -/
structure StrategySM (σ : Type) where
  sample : σ → Option (Sample × σ)
  update : σ → Sample → ℚ → σ
  finished : σ → Bool

/-- The `for _ in range(batch_size)` loop of
`HyperoptStrategy.sample_batch` carrying the `samples` accumulator: an
`IndexError` from `sample()` is re-raised when nothing has been
collected yet, and otherwise swallowed (the loop then keeps going with
the same state). -/
def sampleBatchAux (sample : σ → Option (Sample × σ)) :
    ℕ → σ → List Sample → Option (List Sample × σ)
  | 0, st, samples => some (samples, st)
  | n + 1, st, samples =>
      match sample st with
      | some (s, st') => sampleBatchAux sample n st' (samples ++ [s])
      | none => if samples.isEmpty then none else sampleBatchAux sample n st samples

/-- `HyperoptStrategy.sample_batch(batch_size)` (source lines 57-71);
`none` is the re-raised `IndexError`. -/
def StrategySM.sampleBatch (S : StrategySM σ) (st : σ) (batch_size : ℕ) :
    Option (List Sample × σ) :=
  sampleBatchAux S.sample batch_size st []

/-- `HyperoptStrategy.update_batch(pairs)`: apply `update` over the
pairs in order. -/
def StrategySM.updateBatch (S : StrategySM σ) (st : σ)
    (pairs : List (Sample × ℚ)) : σ :=
  pairs.foldl (fun s pq => S.update s pq.1 pq.2) st

/-- Pull up to `n` samples greedily, stopping at the first exhaustion:
the reference behaviour `sample_batch` is compared against. -/
def collectGreedy (sample : σ → Option (Sample × σ)) : ℕ → σ → List Sample × σ
  | 0, st => ([], st)
  | n + 1, st =>
      match sample st with
      | none => ([], st)
      | some (s, st') =>
          let r := collectGreedy sample n st'
          (s :: r.1, r.2)

/-- `RandomStrategy` state: the list of pre-drawn samples and the
`sampled_so_far` counter. -/
structure RandomStrategyState where
  samples : List Sample
  sampled_so_far : ℕ

/-- `RandomStrategy.__init__` with `num_samples`: `_determine_samples`
loops `num_samples` times, each iteration drawing one random point and
unwarping it into a native sample; the draw (numpy RNG plus
`space.unwarp`, external) is abstracted as `draw`, so the pre-drawn
list is exactly `num_samples` long.  `sampled_so_far` starts at 0. -/
def mkRandomStrategy (draw : ℕ → Sample) (num_samples : ℕ) : RandomStrategyState :=
  { samples := (List.range num_samples).map draw, sampled_so_far := 0 }

/-- `RandomStrategy.sample` (source lines 109-114): raise `IndexError`
when `sampled_so_far >= len(samples)`, else return the next pre-drawn
sample and advance the counter. -/
def RandomStrategyState.sampleFn (st : RandomStrategyState) :
    Option (Sample × RandomStrategyState) :=
  if h : st.samples.length ≤ st.sampled_so_far then none
  else
    some (st.samples.get ⟨st.sampled_so_far, by omega⟩,
      { st with sampled_so_far := st.sampled_so_far + 1 })

/-- `RandomStrategy.finished`: `sampled_so_far >= len(samples)`. -/
def RandomStrategyState.finishedFn (st : RandomStrategyState) : Bool :=
  st.samples.length ≤ st.sampled_so_far

/-- `RandomStrategy` as a strategy state machine; `update` is `pass`. -/
def randomStrategySM : StrategySM RandomStrategyState where
  sample := RandomStrategyState.sampleFn
  update := fun st _ _ => st
  finished := RandomStrategyState.finishedFn

/-- Apply `sample()` `n` times in sequence, keeping the state unchanged
on an exhaustion signal (as the source strategies do). -/
def consumeN (S : StrategySM σ) : ℕ → σ → σ
  | 0, st => st
  | n + 1, st =>
      match S.sample st with
      | some (_, st') => consumeN S n st'
      | none => consumeN S n st

/-- `ludwig.constants.MAXIMIZE`. -/
def MAXIMIZE : String := "maximize"

/-- `ludwig.constants.MINIMIZE`. -/
def MINIMIZE : String := "minimize"

/-- A `TrialResult`, the dict appended per trial: sampled parameters,
extracted metric score, and the opaque stats. -/
structure TrialResult where
  parameters : Sample
  metric_score : ℚ
  training_stats : JVal
  eval_stats : JVal

/-- `HyperoptExecutor.get_metric_score`:
`eval_stats[output_feature][metric]`, raising `KeyError` on a missing
key; the score is required to be numeric (it is compared during
ranking). -/
def getMetricScore (output_feature metric : String) (eval_stats : JVal) :
    Except PyErr ℚ :=
  match eval_stats with
  | .obj d =>
      match dictGet d output_feature with
      | none => .error (.keyError output_feature)
      | some (.obj d2) =>
          match dictGet d2 metric with
          | none => .error (.keyError metric)
          | some (.num q) => .ok q
          | some _ => .error .typeError
      | some _ => .error .typeError
  | _ => .error .typeError

/-- `HyperoptExecutor.sort_hyperopt_results` (source lines 159-162):
Python's stable `sorted` with `key = metric_score` and
`reverse = (goal == MAXIMIZE)`, modelled by a stable insertion sort in
the corresponding direction. -/
def sortHyperoptResults (goal : String) (hyperopt_results : List TrialResult) :
    List TrialResult :=
  if goal = MAXIMIZE then
    List.insertionSort (fun a b => b.metric_score ≤ a.metric_score) hyperopt_results
  else
    List.insertionSort (fun a b => a.metric_score ≤ b.metric_score) hyperopt_results

/-- The body of the `for parameters in sampled_parameters` loop of
`SerialExecutor.execute` (source lines 253-302) for one sample:
substitute into a fresh deep copy of the base definition (`copy.deepcopy`
makes the substitution start from the base value every time), run
`train_and_eval_on_split` — the external Trial Runner, abstracted as
`run`, returning `(train_stats, eval_stats)` — extract the metric score
and build the result dict. -/
def runSerialTrial (run : ModelDef → JVal × JVal) (output_feature metric : String)
    (base : ModelDef) (parameters : Sample) : Except PyErr TrialResult := do
  let modified ← substituteParameters base parameters
  let stats := run modified
  let score ← getMetricScore output_feature metric stats.2
  .ok { parameters := parameters, metric_score := score,
        training_stats := stats.1, eval_stats := stats.2 }

/-- The `while not finished()` loop of `SerialExecutor.execute` with
explicit fuel (`none` = the loop did not terminate within `fuel`
iterations): pull a batch with the hard-coded `sample_batch()`
(batch size 1), run every trial of the batch, feed the `(sample, score)`
pairs back through `update_batch`, and accumulate the results. -/
def serialLoop (S : StrategySM σ) (run : ModelDef → JVal × JVal)
    (output_feature metric : String) (base : ModelDef) :
    ℕ → σ → List TrialResult → Option (Except PyErr (List TrialResult × σ))
  | 0, _, _ => none
  | fuel + 1, st, results =>
      if S.finished st then some (.ok (results, st))
      else
        match S.sampleBatch st 1 with
        | none => some (.error .indexError)
        | some (batch, st') =>
            match batch.mapM (runSerialTrial run output_feature metric base) with
            | .error e => some (.error e)
            | .ok newResults =>
                let st'' := S.updateBatch st'
                  (batch.zip (newResults.map TrialResult.metric_score))
                serialLoop S run output_feature metric base fuel st'' (results ++ newResults)

/-- `SerialExecutor.execute` (source lines 248-308): run the sampling
loop from the strategy's initial state and sort the accumulated results
by the goal. -/
def serialExecute (S : StrategySM σ) (goal : String) (run : ModelDef → JVal × JVal)
    (output_feature metric : String) (base : ModelDef) (fuel : ℕ) (st0 : σ) :
    Option (Except PyErr (List TrialResult)) :=
  (serialLoop S run output_feature metric base fuel st0 []).map
    (fun r => r.map (fun p => sortHyperoptResults goal p.1))

/-- `ParallelExecutor._train_and_eval_model` for one entry of
`hyperopt_parameters` (a `(parameters, modified definition)` pair; the
remaining entries of the dict are the unchanging run options). -/
def runPoolTrial (run : ModelDef → JVal × JVal) (output_feature metric : String)
    (entry : Sample × ModelDef) : Except PyErr TrialResult := do
  let stats := run entry.2
  let score ← getMetricScore output_feature metric stats.2
  .ok { parameters := entry.1, metric_score := score,
        training_stats := stats.1, eval_stats := stats.2 }

/-- The `while not finished()` loop of `ParallelExecutor.execute`
(source lines 450-510, the `gpus is None` dispatch path), with explicit
fuel.  `hyperopt_parameters` is created once before the loop in the
source (line 399) and never reset, so the loop body's
`pool.map(self._train_and_eval_model, hyperopt_parameters)` receives the
entries of every batch accumulated so far; a `pool.map` preserves
positional correspondence, so it is modelled as a sequential `mapM`. -/
def parallelLoop (S : StrategySM σ) (run : ModelDef → JVal × JVal)
    (output_feature metric : String) (base : ModelDef) :
    ℕ → σ → List (Sample × ModelDef) → List TrialResult →
      Option (Except PyErr (List TrialResult × σ))
  | 0, _, _, _ => none
  | fuel + 1, st, hyperopt_parameters, results =>
      if S.finished st then some (.ok (results, st))
      else
        match S.sampleBatch st 1 with
        | none => some (.error .indexError)
        | some (batch, st') =>
            match batch.mapM
                (fun p => (substituteParameters base p).map (fun md => (p, md))) with
            | .error e => some (.error e)
            | .ok newEntries =>
                let hp := hyperopt_parameters ++ newEntries
                match hp.mapM (runPoolTrial run output_feature metric) with
                | .error e => some (.error e)
                | .ok batch_results =>
                    let st'' := S.updateBatch st'
                      (batch_results.map (fun r => (r.parameters, r.metric_score)))
                    parallelLoop S run output_feature metric base fuel st'' hp
                      (results ++ batch_results)

/-- `ParallelExecutor.execute` on the `gpus is None` path: the sampling
loop from the strategy's initial state, results sorted by the goal. -/
def parallelExecute (S : StrategySM σ) (goal : String) (run : ModelDef → JVal × JVal)
    (output_feature metric : String) (base : ModelDef) (fuel : ℕ) (st0 : σ) :
    Option (Except PyErr (List TrialResult)) :=
  (parallelLoop S run output_feature metric base fuel st0 [] []).map
    (fun r => r.map (fun p => sortHyperoptResults goal p.1))

/-- The gpu-fraction adjustment at the top of `ParallelExecutor.execute`
(source lines 417-439), applied when `gpus` is not `None` and run on
`total_gpus = len(gpus.strip().split(","))`: returns the resulting
`gpu_fraction` together with whether a warning was logged. -/
def adjustGpuFraction (num_workers : ℕ) (epsilon : ℚ) (total_gpus : ℕ)
    (gpu_fraction : ℚ) : ℚ × Bool :=
  if total_gpus < num_workers then
    let fraction : ℚ := (total_gpus : ℚ) / (num_workers : ℚ) - epsilon
    if fraction < gpu_fraction then
      if 1 / 2 < fraction then
        if gpu_fraction = 1 then (1, false) else (1, true)
      else (fraction, true)
    else (gpu_fraction, true)
  else (gpu_fraction, false)

/-- `ParallelExecutor._train_and_eval_model_gpu` (source lines
346-360): take a device id from the front of the token queue, run the
`try` body — abstracted as `body`, which may raise — and put the id back
at the tail of the queue in the `finally` block whether or not the body
raised.  `queue.get()` on an empty queue blocks forever, so no value is
returned then. -/
def trainAndEvalModelGpu (body : String → Except PyErr TrialResult)
    (queue : List String) : Option (Except PyErr TrialResult × List String) :=
  match queue with
  | [] => none
  | gpu_id :: rest => some (body gpu_id, rest ++ [gpu_id])



/-- Concrete strategy draw used to exercise the executors: sample `i`
assigns `training.p = i`. -/
def demoDraw (i : ℕ) : Sample := [("training.p", JVal.num i)]

/-- A minimal base model definition (no features, empty sections). -/
def demoBase : ModelDef := ⟨[], [], [], [], []⟩

/-- A stub Trial Runner: every trial yields empty training stats and
`eval_stats = {"of": {"m": 1}}`. -/
def demoRun (_ : ModelDef) : JVal × JVal :=
  (.obj [], .obj [("of", .obj [("m", .num 1)])])

/-- The sequence of per-trial model definitions an executor builds over
a run: every executor computes
`substitute_parameters(copy.deepcopy(model_definition), parameters)`
(source lines 254, 456, 634), and the deep copy makes each trial start
from the caller's base value, so trial `i` consumes
`substituteParameters base samples[i]`. -/
def trialDefinitions (base : ModelDef) (samples : List Sample) :
    List (Except PyErr ModelDef) :=
  samples.map (substituteParameters base)

/-- Three trials with metric scores `0.5`, `0.9`, `0.7` (the spec's
ranking example). -/
def demoResults : List TrialResult :=
  [⟨[("p", JVal.num 0)], 5 / 10, .obj [], .obj []⟩,
   ⟨[("p", JVal.num 1)], 9 / 10, .obj [], .obj []⟩,
   ⟨[("p", JVal.num 2)], 7 / 10, .obj [], .obj []⟩]

/-- The spec's one-level shallow merge (§4.3 `apply`), in the spec's
words: scalar values overwrite the key directly; one-level-nested dict
values overwrite per sub-key inside the existing sub-dict of the
section. -/
def specShallowMerge (sec : Dict) (updates : List (String × JVal)) : Except PyErr Dict :=
  updates.foldlM
    (fun d kv =>
      match kv.2 with
      | .obj subs => subs.foldlM (fun d' skv => setSubValue d' kv.1 skv.1 skv.2) d
      | _ => .ok (dictSet d kv.1 kv.2))
    sec

/-- The spec's per-section step of `apply`: look the section's name up
in the nested mapping produced by `parse`; if present, shallow-merge
one level into the section; a section not named in the sample is left
untouched. -/
def specApplySection (pd : Dict) (sec : Dict) (name : String) : Except PyErr Dict :=
  match dictGet pd name with
  | none => .ok sec
  | some (.obj updates) => specShallowMerge sec updates
  | some _ => .error .typeError

/-- The spec's per-feature step of `apply`: a feature section is
identified by its `name` entry. -/
def specApplyFeature (pd : Dict) (f : Dict) : Except PyErr Dict :=
  match dictGet f "name" with
  | none => .error (.keyError "name")
  | some (.str n) => specApplySection pd f n
  | some _ => .ok f

/-- `apply` exactly as claim C5 states it: merge only into the input
features, the output features, the combiner section and the training
section; the preprocessing section is left completely untouched. -/
def specApplyClaimed (md : ModelDef) (parameters : Sample) : Except PyErr ModelDef := do
  let pd ← getParametersDict parameters
  let ifs ← md.input_features.mapM (specApplyFeature pd)
  let ofs ← md.output_features.mapM (specApplyFeature pd)
  let comb ← specApplySection pd md.combiner "combiner"
  let train ← specApplySection pd md.training "training"
  .ok { input_features := ifs, output_features := ofs, combiner := comb,
        training := train, preprocessing := md.preprocessing }

/-- The spec's `apply`, amended to also merge into the preprocessing
section (the amendment the source forces). -/
def specApply (md : ModelDef) (parameters : Sample) : Except PyErr ModelDef := do
  let pd ← getParametersDict parameters
  let ifs ← md.input_features.mapM (specApplyFeature pd)
  let ofs ← md.output_features.mapM (specApplyFeature pd)
  let comb ← specApplySection pd md.combiner "combiner"
  let train ← specApplySection pd md.training "training"
  let preproc ← specApplySection pd md.preprocessing "preprocessing"
  .ok { input_features := ifs, output_features := ofs, combiner := comb,
        training := train, preprocessing := preproc }

/-! ## Helper lemmas -/

lemma collectGreedy_of_none {σ : Type} {sample : σ → Option (Sample × σ)} {st : σ}
    (h : sample st = none) : ∀ n, collectGreedy sample n st = ([], st) := by
  intro n
  cases n with
  | zero => rfl
  | succ m => simp [collectGreedy, h]

lemma sampleBatchAux_of_ne_nil {σ : Type} (sample : σ → Option (Sample × σ)) :
    ∀ (n : ℕ) (st : σ) (acc : List Sample), acc ≠ [] →
      sampleBatchAux sample n st acc =
        some (acc ++ (collectGreedy sample n st).1, (collectGreedy sample n st).2) := by
  intro n
  induction n with
  | zero => intro st acc _; simp [sampleBatchAux, collectGreedy]
  | succ m ih =>
      intro st acc hacc
      cases h : sample st with
      | none =>
          rw [sampleBatchAux, h]
          have he : ¬ (acc.isEmpty = true) := by simpa using hacc
          rw [if_neg he, ih st acc hacc, collectGreedy_of_none h m,
            collectGreedy_of_none h (m + 1)]
      | some p =>
          obtain ⟨s, st'⟩ := p
          rw [sampleBatchAux, h]
          show sampleBatchAux sample m st' (acc ++ [s]) = _
          rw [ih st' (acc ++ [s]) (by simp)]
          simp [collectGreedy, h]

lemma collectGreedy_length_le {σ : Type} (sample : σ → Option (Sample × σ)) :
    ∀ (n : ℕ) (st : σ), (collectGreedy sample n st).1.length ≤ n := by
  intro n
  induction n with
  | zero => intro st; simp [collectGreedy]
  | succ m ih =>
      intro st
      cases h : sample st with
      | none => simp [collectGreedy, h]
      | some p => simpa [collectGreedy, h] using ih p.2

lemma sampleFn_lt {l : List Sample} {c : ℕ} (h : c < l.length) :
    RandomStrategyState.sampleFn ⟨l, c⟩ = some (l.get ⟨c, h⟩, ⟨l, c + 1⟩) := by
  simp only [RandomStrategyState.sampleFn]
  rw [dif_neg (by omega)]

lemma sampleFn_ge {l : List Sample} {c : ℕ} (h : l.length ≤ c) :
    RandomStrategyState.sampleFn ⟨l, c⟩ = none := by
  simp only [RandomStrategyState.sampleFn]
  rw [dif_pos (by omega)]

lemma consumeN_random (l : List Sample) :
    ∀ (j c : ℕ), consumeN randomStrategySM j ⟨l, c⟩ =
      ⟨l, if l.length ≤ c then c else min (c + j) l.length⟩ := by
  intro j
  induction j with
  | zero =>
      intro c
      have : (if l.length ≤ c then c else min (c + 0) l.length) = c := by
        split <;> omega
      rw [this]
      rfl
  | succ m ih =>
      intro c
      by_cases h : l.length ≤ c
      · have hs : randomStrategySM.sample ⟨l, c⟩ = none := sampleFn_ge h
        rw [consumeN, hs]
        show consumeN randomStrategySM m ⟨l, c⟩ = _
        rw [ih c]
        congr 1
        split <;> omega
      · have hs : randomStrategySM.sample ⟨l, c⟩ =
            some (l.get ⟨c, by omega⟩, ⟨l, c + 1⟩) := sampleFn_lt (by omega)
        rw [consumeN, hs]
        show consumeN randomStrategySM m ⟨l, c + 1⟩ = _
        rw [ih (c + 1)]
        congr 1
        split <;> omega

/-! ## Claim theorems -/

/-- C2: for every strategy and every batch size `k ≥ 1`,
`sample_batch(k)` propagates the exhaustion signal exactly when the very
first `sample()` call of the batch raises it (the collected list is
empty); if exhaustion strikes after at least one sample was collected,
`sample_batch` swallows the signal and returns the partial — possibly
shorter than `k` — list of samples collected so far
(`collectGreedy`). -/
theorem sample_batch_exhaustion {σ : Type} (S : StrategySM σ) (k : ℕ) (st : σ)
    (hk : 1 ≤ k) :
    (S.sample st = none → S.sampleBatch st k = none) ∧
    (∀ s st1, S.sample st = some (s, st1) →
      S.sampleBatch st k = some (collectGreedy S.sample k st) ∧
      (collectGreedy S.sample k st).1 ≠ [] ∧
      (collectGreedy S.sample k st).1.length ≤ k) := by
  obtain ⟨m, rfl⟩ : ∃ m, k = m + 1 := ⟨k - 1, by omega⟩
  constructor
  · intro h
    rw [StrategySM.sampleBatch, sampleBatchAux, h]
    simp
  · intro s st1 h
    refine ⟨?_, ?_, collectGreedy_length_le _ _ _⟩
    · rw [StrategySM.sampleBatch, sampleBatchAux, h]
      show sampleBatchAux S.sample m st1 [s] = _
      rw [sampleBatchAux_of_ne_nil S.sample m st1 [s] (by simp)]
      simp [collectGreedy, h]
    · simp [collectGreedy, h]

/-- Witness for C2: a one-sample `RandomStrategy` state with
`batch_size = 2` exhausts mid-batch and returns the partial
one-element batch. -/
theorem sample_batch_exhaustion_witness :
    randomStrategySM.sampleBatch ⟨[[("a", JVal.num 1)]], 0⟩ 2 =
      some (collectGreedy randomStrategySM.sample 2 ⟨[[("a", JVal.num 1)]], 0⟩) ∧
    (collectGreedy randomStrategySM.sample 2 ⟨[[("a", JVal.num 1)]], 0⟩).1 ≠ [] := by
  have h := (sample_batch_exhaustion randomStrategySM 2 ⟨[[("a", JVal.num 1)]], 0⟩
    (by omega)).2 [("a", JVal.num 1)] ⟨[[("a", JVal.num 1)]], 1⟩ rfl
  exact ⟨h.1, h.2.1⟩

/-- C4: a `RandomStrategy` built with `num_samples = N` yields a sample
(the `j`-th pre-drawn one) on each of the first `N` successive
`sample()` calls, raises the `IndexError` exhaustion signal (`none` in
this encoding — a distinguished outcome, not a generic error) on every
call after the `N`-th, and `finished()` is true exactly once `N`
samples have been consumed, remaining true thereafter. -/
theorem random_strategy_budget (draw : ℕ → Sample) (N j : ℕ) :
    (j < N →
      (consumeN randomStrategySM j (mkRandomStrategy draw N)).sampleFn =
        some (draw j, consumeN randomStrategySM (j + 1) (mkRandomStrategy draw N))) ∧
    (N ≤ j →
      (consumeN randomStrategySM j (mkRandomStrategy draw N)).sampleFn = none) ∧
    ((consumeN randomStrategySM j (mkRandomStrategy draw N)).finishedFn = true ↔ N ≤ j) := by
  have hlen : ((List.range N).map draw).length = N := by simp
  have hc : ∀ i, consumeN randomStrategySM i (mkRandomStrategy draw N) =
      ⟨(List.range N).map draw, min i N⟩ := by
    intro i
    rw [mkRandomStrategy, consumeN_random]
    congr 1
    rw [hlen]
    split <;> omega
  refine ⟨?_, ?_, ?_⟩
  · intro hj
    rw [hc j, hc (j + 1), sampleFn_lt (by omega)]
    congr 1
    congr 1
    · simp only [List.get_eq_getElem, List.getElem_map, List.getElem_range]
      congr 1
      omega
    · congr 1
      omega
  · intro hj
    rw [hc j, sampleFn_ge (by rw [hlen]; omega)]
  · rw [hc j]
    simp only [RandomStrategyState.finishedFn, hlen]
    constructor
    · intro hh
      have := of_decide_eq_true hh
      omega
    · intro hh
      exact decide_eq_true (by omega)

/-- Witness for C4: a two-sample random strategy yields the second
pre-drawn sample on the second call, raises exhaustion on the fourth
call, and is finished after three calls. -/
theorem random_strategy_budget_witness :
    (consumeN randomStrategySM 1
        (mkRandomStrategy (fun i => [("p", JVal.num i)]) 2)).sampleFn =
      some ([("p", JVal.num 1)],
        consumeN randomStrategySM 2 (mkRandomStrategy (fun i => [("p", JVal.num i)]) 2)) ∧
    (consumeN randomStrategySM 3
        (mkRandomStrategy (fun i => [("p", JVal.num i)]) 2)).sampleFn = none ∧
    ((consumeN randomStrategySM 3
        (mkRandomStrategy (fun i => [("p", JVal.num i)]) 2)).finishedFn = true ↔ 2 ≤ 3) :=
  ⟨(random_strategy_budget (fun i => [("p", JVal.num i)]) 2 1).1 (by omega),
   (random_strategy_budget (fun i => [("p", JVal.num i)]) 2 3).2.1 (by omega),
   (random_strategy_budget (fun i => [("p", JVal.num i)]) 2 3).2.2⟩



/-- C1 (bug evidence): running `ParallelExecutor.execute` on a
two-sample `RandomStrategy` re-dispatches the first batch's trial in the
second loop iteration — `hyperopt_parameters` is created before the loop
and never reset — so the run returns three `TrialResult`s for two
samples, the first sample's trial appearing twice; `SerialExecutor`
returns exactly one result per sample on the same input. -/
theorem parallel_executor_redispatch :
    (parallelExecute randomStrategySM MAXIMIZE demoRun "of" "m" demoBase 5
        (mkRandomStrategy demoDraw 2)).map
        (fun r => r.map (fun l => l.map TrialResult.parameters)) =
      some (.ok [demoDraw 0, demoDraw 0, demoDraw 1]) ∧
    (serialExecute randomStrategySM MAXIMIZE demoRun "of" "m" demoBase 5
        (mkRandomStrategy demoDraw 2)).map
        (fun r => r.map (fun l => l.map TrialResult.parameters)) =
      some (.ok [demoDraw 0, demoDraw 1]) ∧
    (mkRandomStrategy demoDraw 2).samples.length = 2 := ⟨rfl, rfl, rfl⟩

/-- C3 (counterexample): with 2 device ids, 3 workers and
`gpu_fraction = 0.9`, the safe ratio `2/3 - 0.01` is below the
configured fraction, yet the executor sets `gpu_fraction` to `1` — an
increase — instead of shrinking it to the safe ratio. -/
theorem gpu_fraction_counterexample :
    2 < 3 ∧ ((2 : ℚ) / 3 - 1 / 100 < 9 / 10) ∧
    (adjustGpuFraction 3 (1 / 100) 2 (9 / 10)).1 = 1 ∧
    ¬ ((adjustGpuFraction 3 (1 / 100) 2 (9 / 10)).1 ≤ 9 / 10) := by
  have h : adjustGpuFraction 3 (1 / 100) 2 (9 / 10) = (1, true) := by
    simp only [adjustGpuFraction]
    rw [if_pos (by omega), if_pos (by norm_num), if_pos (by norm_num),
      if_neg (by norm_num)]
  refine ⟨by omega, by norm_num, by rw [h], by rw [h]; norm_num⟩

/-- C3 (amended): when there are fewer device ids than workers and the
safe ratio `total_gpus/num_workers - epsilon` is below the configured
`gpu_fraction`, the executor shrinks `gpu_fraction` to the safe ratio
only when that ratio is at most `1/2`, warning as it does; when the
ratio exceeds `1/2` it instead sets `gpu_fraction` to `1` — possibly an
increase — warning unless the fraction already was `1`. -/
theorem gpu_fraction_adjustment (num_workers total_gpus : ℕ) (epsilon gpu_fraction : ℚ)
    (h1 : total_gpus < num_workers)
    (h2 : (total_gpus : ℚ) / num_workers - epsilon < gpu_fraction) :
    ((total_gpus : ℚ) / num_workers - epsilon ≤ 1 / 2 →
      adjustGpuFraction num_workers epsilon total_gpus gpu_fraction =
        ((total_gpus : ℚ) / num_workers - epsilon, true)) ∧
    (1 / 2 < (total_gpus : ℚ) / num_workers - epsilon →
      adjustGpuFraction num_workers epsilon total_gpus gpu_fraction =
        (1, if gpu_fraction = 1 then false else true)) := by
  constructor
  · intro h3
    simp only [adjustGpuFraction, if_pos h1, if_pos h2, if_neg (not_lt.mpr h3)]
  · intro h3
    simp only [adjustGpuFraction, if_pos h1, if_pos h2, if_pos h3]
    split <;> rfl

/-- Witness for the amended C3: 1 device id, 4 workers,
`gpu_fraction = 1/2` — the safe ratio `1/4 - 1/100` is below `1/2`, so
the fraction is shrunk to it with a warning. -/
theorem gpu_fraction_adjustment_witness :
    adjustGpuFraction 4 (1 / 100) 1 (1 / 2) = ((1 : ℚ) / 4 - 1 / 100, true) :=
  (gpu_fraction_adjustment 4 1 (1 / 100) (1 / 2) (by omega) (by norm_num)).1
    (by norm_num)

/-- C7: `_train_and_eval_model_gpu` takes the device id at the head of
the token queue and the `finally` block puts it back at the tail, for
every trial body — including one that raises (`body gpu_id` may be any
`Except.error`) — so the queue after the call is a permutation of the
queue before it and in particular holds exactly as many tokens. -/
theorem gpu_token_restored (body : String → Except PyErr TrialResult)
    (gpu_id : String) (rest : List String) :
    trainAndEvalModelGpu body (gpu_id :: rest) = some (body gpu_id, rest ++ [gpu_id]) ∧
    (rest ++ [gpu_id]).length = (gpu_id :: rest).length ∧
    (rest ++ [gpu_id]).Perm (gpu_id :: rest) :=
  ⟨rfl, by simp, List.perm_append_singleton _ _⟩


lemma exc_bind_ok {α β : Type} (a : α) (f : α → Except PyErr β) :
    (Except.ok a >>= f) = f a := rfl

lemma exc_bind_err {α β : Type} (e : PyErr) (f : α → Except PyErr β) :
    ((Except.error e : Except PyErr α) >>= f) = .error e := rfl

lemma setValues_nil (d : Dict) (n : String) : setValues d n [] = .ok d := rfl

lemma mapM_ok_id (g : Dict → Except PyErr Dict) (l : List Dict)
    (h : ∀ f ∈ l, g f = .ok f) : l.mapM g = .ok l := by
  induction l with
  | nil => rfl
  | cons a t ih =>
      rw [List.mapM_cons, h a (by simp), ih (fun f hf => h f (by simp [hf]))]
      rfl

lemma setFeatureValues_nil (f : Dict) (h : (dictGet f "name").isSome = true) :
    setFeatureValues f [] = .ok f := by
  cases hg : dictGet f "name" with
  | none => rw [hg] at h; simp at h
  | some v => cases v <;> simp [setFeatureValues, hg, setValues_nil]

lemma setFeatureValues_combiner_only (X : JVal) (f : Dict)
    (h1 : (dictGet f "name").isSome = true)
    (h2 : dictGet f "name" ≠ some (JVal.str "combiner")) :
    setFeatureValues f [("combiner", X)] = .ok f := by
  cases hg : dictGet f "name" with
  | none => rw [hg] at h1; simp at h1
  | some v =>
      cases v with
      | str s =>
          have hs : s ≠ "combiner" := by
            intro hh; rw [hh] at hg; exact h2 hg
          simp [setFeatureValues, hg, setValues, dictGet, Ne.symm hs]
      | num q => simp [setFeatureValues, hg]
      | obj o => simp [setFeatureValues, hg]

lemma setValues_eq_specApplySection (d : Dict) (n : String) (pd : Dict) :
    setValues d n pd = specApplySection pd d n := by
  cases h : dictGet pd n with
  | none => simp [setValues, specApplySection, h]
  | some v => cases v <;> simp [setValues, specApplySection, specShallowMerge, h]

lemma setFeatureValues_eq_specApplyFeature (f pd : Dict) :
    setFeatureValues f pd = specApplyFeature pd f := by
  cases h : dictGet f "name" with
  | none => simp [setFeatureValues, specApplyFeature, h]
  | some v =>
      cases v <;>
        simp [setFeatureValues, specApplyFeature, h, setValues_eq_specApplySection]

/-- C6: trial isolation.  Each trial's model definition is computed from
the caller's base definition and that trial's own sample alone (the per
trial deep copy shields the base and the other trials): replacing any
other trial's sample leaves trial `i`'s definition unchanged, and trial
`i`'s definition is exactly `substituteParameters base samples[i]`. -/
theorem trial_isolation (base : ModelDef) (samples : List Sample) (i j : ℕ)
    (q : Sample) (hij : i ≠ j) :
    (trialDefinitions base (samples.set j q))[i]? = (trialDefinitions base samples)[i]? ∧
    (trialDefinitions base samples)[i]? = (samples[i]?).map (substituteParameters base) := by
  constructor
  · simp only [trialDefinitions, List.getElem?_map, List.getElem?_set_ne (Ne.symm hij)]
  · simp [trialDefinitions, List.getElem?_map]

/-- Witness for C6: replacing the second of two samples does not change
the first trial's definition. -/
theorem trial_isolation_witness :
    (trialDefinitions demoBase ([demoDraw 0, demoDraw 1].set 1 (demoDraw 5)))[0]? =
      (trialDefinitions demoBase [demoDraw 0, demoDraw 1])[0]? ∧
    (trialDefinitions demoBase [demoDraw 0, demoDraw 1])[0]? =
      some (substituteParameters demoBase (demoDraw 0)) :=
  trial_isolation demoBase [demoDraw 0, demoDraw 1] 0 1 (demoDraw 5) (by omega)

/-- C8: `sort_hyperopt_results` returns a permutation of the
accumulated results ordered by `metric_score` — descending under
`MAXIMIZE`, ascending under `MINIMIZE` — and on three trials scoring
`[0.5, 0.9, 0.7]` it returns score order `[0.9, 0.7, 0.5]` under
`MAXIMIZE` and `[0.5, 0.7, 0.9]` under `MINIMIZE`.  (Every executor's
`execute` returns `sortHyperoptResults` of its accumulated results by
definition.) -/
theorem results_ranked_by_goal :
    (∀ results : List TrialResult,
      (sortHyperoptResults MAXIMIZE results).Sorted
        (fun a b => b.metric_score ≤ a.metric_score) ∧
      (sortHyperoptResults MAXIMIZE results).Perm results) ∧
    (∀ results : List TrialResult,
      (sortHyperoptResults MINIMIZE results).Sorted
        (fun a b => a.metric_score ≤ b.metric_score) ∧
      (sortHyperoptResults MINIMIZE results).Perm results) ∧
    (sortHyperoptResults MAXIMIZE demoResults).map TrialResult.metric_score =
      [9 / 10, 7 / 10, 5 / 10] ∧
    (sortHyperoptResults MINIMIZE demoResults).map TrialResult.metric_score =
      [5 / 10, 7 / 10, 9 / 10] := by
  haveI ht1 : IsTotal TrialResult (fun a b => b.metric_score ≤ a.metric_score) :=
    ⟨fun a b => le_total b.metric_score a.metric_score⟩
  haveI ht2 : IsTrans TrialResult (fun a b => b.metric_score ≤ a.metric_score) :=
    ⟨fun _ _ _ h1 h2 => le_trans h2 h1⟩
  haveI ht3 : IsTotal TrialResult (fun a b => a.metric_score ≤ b.metric_score) :=
    ⟨fun a b => le_total a.metric_score b.metric_score⟩
  haveI ht4 : IsTrans TrialResult (fun a b => a.metric_score ≤ b.metric_score) :=
    ⟨fun _ _ _ h1 h2 => le_trans h1 h2⟩
  refine ⟨fun results => ⟨?_, ?_⟩, fun results => ⟨?_, ?_⟩, ?_, ?_⟩
  · simpa [sortHyperoptResults] using
      List.sorted_insertionSort (fun a b => b.metric_score ≤ a.metric_score) results
  · simpa [sortHyperoptResults] using
      List.perm_insertionSort (fun a b => b.metric_score ≤ a.metric_score) results
  · have hne : MINIMIZE ≠ MAXIMIZE := by decide
    simpa [sortHyperoptResults, hne] using
      List.sorted_insertionSort (fun a b => a.metric_score ≤ b.metric_score) results
  · have hne : MINIMIZE ≠ MAXIMIZE := by decide
    simpa [sortHyperoptResults, hne] using
      List.perm_insertionSort (fun a b => a.metric_score ≤ b.metric_score) results
  · norm_num [sortHyperoptResults, demoResults, List.insertionSort,
      List.orderedInsert, MAXIMIZE, MINIMIZE]
  · have hne : ("minimize" : String) ≠ "maximize" := by decide
    norm_num [sortHyperoptResults, demoResults, List.insertionSort,
      List.orderedInsert, MAXIMIZE, MINIMIZE, hne]

/-- C9: substituting an empty sample is the identity — provided every
feature dict has the `name` entry that `substitute_parameters` reads
before its (then vacuous) merge. -/
theorem substitute_empty_identity (md : ModelDef)
    (hin : ∀ f ∈ md.input_features, (dictGet f "name").isSome = true)
    (hout : ∀ f ∈ md.output_features, (dictGet f "name").isSome = true) :
    substituteParameters md [] = .ok md := by
  have hifs : md.input_features.mapM (setFeatureValues · []) = .ok md.input_features :=
    mapM_ok_id _ _ (fun f hf => setFeatureValues_nil f (hin f hf))
  have hofs : md.output_features.mapM (setFeatureValues · []) = .ok md.output_features :=
    mapM_ok_id _ _ (fun f hf => setFeatureValues_nil f (hout f hf))
  simp only [substituteParameters, show getParametersDict [] = .ok [] from rfl,
    exc_bind_ok, hifs, hofs, setValues_nil]

/-- Witness for C9: a small named model definition is returned
unchanged under the empty sample. -/
theorem substitute_empty_identity_witness :
    substituteParameters ⟨[[("name", JVal.str "f1")]], [[("name", JVal.str "o1")]],
      [("size", JVal.num 3)], [], []⟩ [] =
      .ok ⟨[[("name", JVal.str "f1")]], [[("name", JVal.str "o1")]],
        [("size", JVal.num 3)], [], []⟩ :=
  substitute_empty_identity _ (by simp [dictGet]) (by simp [dictGet])

/-- C10: a dotted name of three (or more) segments whose second segment
is not already a key of the targeted section makes
`substitute_parameters` raise an uncaught `KeyError` on that segment —
the nested sub-section is indexed, never created — while a two-segment
name writes its key into the section unconditionally, creating or
overwriting it. -/
theorem nested_substitution_keyerror (md : ModelDef) (v w : JVal)
    (hin : ∀ f ∈ md.input_features,
      (dictGet f "name").isSome = true ∧ dictGet f "name" ≠ some (JVal.str "combiner"))
    (hout : ∀ f ∈ md.output_features,
      (dictGet f "name").isSome = true ∧ dictGet f "name" ≠ some (JVal.str "combiner"))
    (hfc : dictGet md.combiner "fc" = none)
    (hw : ∀ e, w ≠ JVal.obj e) :
    substituteParameters md [("combiner.fc.size", v)] = .error (.keyError "fc") ∧
    substituteParameters md [("combiner.fc.size.x", v)] = .error (.keyError "fc") ∧
    substituteParameters md [("combiner.size", w)] =
      .ok { md with combiner := dictSet md.combiner "size" w } := by
  have hifs : ∀ X : JVal,
      md.input_features.mapM (setFeatureValues · [("combiner", X)]) =
        .ok md.input_features := fun X =>
    mapM_ok_id _ _ (fun f hf =>
      setFeatureValues_combiner_only X f (hin f hf).1 (hin f hf).2)
  have hofs : ∀ X : JVal,
      md.output_features.mapM (setFeatureValues · [("combiner", X)]) =
        .ok md.output_features := fun X =>
    mapM_ok_id _ _ (fun f hf =>
      setFeatureValues_combiner_only X f (hout f hf).1 (hout f hf).2)
  refine ⟨?_, ?_, ?_⟩
  · have hcomb : setValues md.combiner "combiner"
        [("combiner", JVal.obj [("fc", JVal.obj [("size", v)])])] =
          .error (.keyError "fc") := by
      simp only [setValues,
        show dictGet [("combiner", JVal.obj [("fc", JVal.obj [("size", v)])])] "combiner" =
          some (JVal.obj [("fc", JVal.obj [("size", v)])]) from rfl,
        List.foldlM_cons, setSubValue, hfc, exc_bind_err, List.foldlM_nil]
    simp only [substituteParameters,
      show getParametersDict [("combiner.fc.size", v)] =
        .ok [("combiner", JVal.obj [("fc", JVal.obj [("size", v)])])] from rfl,
      exc_bind_ok, hifs, hofs, hcomb, exc_bind_err]
  · have hcomb : setValues md.combiner "combiner"
        [("combiner", JVal.obj [("fc", JVal.obj [("size", JVal.obj [("x", v)])])])] =
          .error (.keyError "fc") := by
      simp only [setValues,
        show dictGet
            [("combiner", JVal.obj [("fc", JVal.obj [("size", JVal.obj [("x", v)])])])]
            "combiner" =
          some (JVal.obj [("fc", JVal.obj [("size", JVal.obj [("x", v)])])]) from rfl,
        List.foldlM_cons, setSubValue, hfc, exc_bind_err, List.foldlM_nil]
    simp only [substituteParameters,
      show getParametersDict [("combiner.fc.size.x", v)] =
        .ok [("combiner", JVal.obj [("fc", JVal.obj [("size", JVal.obj [("x", v)])])])]
        from rfl,
      exc_bind_ok, hifs, hofs, hcomb, exc_bind_err]
  · have hcomb : setValues md.combiner "combiner" [("combiner", JVal.obj [("size", w)])] =
        .ok (dictSet md.combiner "size" w) := by
      cases w with
      | obj e => exact absurd rfl (hw e)
      | num q =>
          simp only [setValues,
            show dictGet [("combiner", JVal.obj [("size", JVal.num q)])] "combiner" =
              some (JVal.obj [("size", JVal.num q)]) from rfl,
            List.foldlM_cons, List.foldlM_nil, exc_bind_ok]
          rfl
      | str s =>
          simp only [setValues,
            show dictGet [("combiner", JVal.obj [("size", JVal.str s)])] "combiner" =
              some (JVal.obj [("size", JVal.str s)]) from rfl,
            List.foldlM_cons, List.foldlM_nil, exc_bind_ok]
          rfl
    simp only [substituteParameters,
      show getParametersDict [("combiner.size", w)] =
        .ok [("combiner", JVal.obj [("size", w)])] from rfl,
      exc_bind_ok, hifs, hofs, hcomb,
      show ∀ X : JVal, setValues md.training "training" [("combiner", X)] = .ok md.training
        from fun X => by simp [setValues, dictGet],
      show ∀ X : JVal,
          setValues md.preprocessing "preprocessing" [("combiner", X)] = .ok md.preprocessing
        from fun X => by simp [setValues, dictGet]]

/-- Witness for C10: a model whose combiner has no `fc` key raises
`KeyError("fc")` for `combiner.fc.size`, while `combiner.size` creates
the missing `size` key. -/
theorem nested_substitution_keyerror_witness :
    substituteParameters ⟨[], [], [("k", JVal.num 1)], [], []⟩
        [("combiner.fc.size", JVal.num 7)] = .error (.keyError "fc") ∧
    substituteParameters ⟨[], [], [("k", JVal.num 1)], [], []⟩
        [("combiner.size", JVal.num 5)] =
      .ok ⟨[], [], [("k", JVal.num 1), ("size", JVal.num 5)], [], []⟩ := by
  have h := nested_substitution_keyerror ⟨[], [], [("k", JVal.num 1)], [], []⟩
    (JVal.num 7) (JVal.num 5) (by simp) (by simp) rfl (fun e hh => JVal.noConfusion hh)
  exact ⟨h.1, h.2.2⟩

/-- C5 (counterexample): the claim excludes the preprocessing section
from the merge targets, but the source also merges into it — on a
sample naming only `preprocessing.a`, `substitute_parameters` changes
the preprocessing section while the claimed `apply` leaves it
untouched. -/
theorem preprocessing_merged_counterexample :
    substituteParameters ⟨[], [], [], [], [("a", JVal.num 0)]⟩
        [("preprocessing.a", JVal.num 1)] =
      .ok ⟨[], [], [], [], [("a", JVal.num 1)]⟩ ∧
    specApplyClaimed ⟨[], [], [], [], [("a", JVal.num 0)]⟩
        [("preprocessing.a", JVal.num 1)] =
      .ok ⟨[], [], [], [], [("a", JVal.num 0)]⟩ ∧
    ([("a", JVal.num 1)] : Dict) ≠ [("a", JVal.num 0)] := ⟨rfl, rfl, by simp⟩

/-- C5 (amended): `substitute_parameters` coincides with the spec's
`apply` once the preprocessing section is added to the merge targets —
one-level shallow merge into exactly the sections the sample names
among the input features, output features, combiner, training and
preprocessing sections, every section not named left untouched. -/
theorem substitute_parameters_spec (md : ModelDef) (parameters : Sample) :
    substituteParameters md parameters = specApply md parameters := by
  simp only [substituteParameters, specApply]
  refine bind_congr fun pd => ?_
  rw [show (fun f => setFeatureValues f pd) = specApplyFeature pd from
    funext fun f => setFeatureValues_eq_specApplyFeature f pd]
  refine bind_congr fun ifs => ?_
  refine bind_congr fun ofs => ?_
  rw [setValues_eq_specApplySection]
  refine bind_congr fun comb => ?_
  rw [setValues_eq_specApplySection]
  refine bind_congr fun train => ?_
  rw [setValues_eq_specApplySection]
